import Mathlib

/-!
Verification of the Go search-index engine (`src/extension/src/indexer.ts`,
class `GoIndexer`, and the extension-side result combination in the
extension module).

Shallow embedding conventions:
* JavaScript strings holding file content are modelled as `List Char`;
  `String.prototype.toLowerCase` is modelled character-wise by
  `Char.toLower`, `String.prototype.split('\n')` by `splitLines`,
  `String.prototype.includes` by `jsIncludes`.
* A JavaScript `Map` is modelled as an association list in insertion
  order; `Map.set` / `Map.delete` / `new Map(entries)` are `mapSet` /
  `mapDelete` / `mapFromEntries`.
* Readings of the ambient environment (vscode workspace state, the `go`
  toolchain, the file system, `find` output and the regex-based symbol
  extraction) are fields of an `Env` record; code that performs such a
  reading consumes the corresponding field.
* `JSON.stringify(...).length` of an entry array, of the chunked wrapper
  object, and of the metadata object are abstracted as size functions
  `sz`, `szC`, `szMeta` passed to the codec; the byte-size thresholds of
  the source (10/20/30/50/100/200 MB) are kept literally.
* Exceptions swallowed by `try/catch` around pure in-memory steps do not
  arise in the embedding; `try/catch` around file-system reads is
  modelled by `Option` results in `Env.fs`.
-/

namespace GoSearch

/-- `String.prototype.toLowerCase`, modelled character-wise. -/
def jsToLowerCase (s : List Char) : List Char := s.map Char.toLower

/-- `content.split('\n')`: split on newline characters, JS semantics
(`"" ↦ [""]`, a trailing newline yields a trailing empty line). -/
def splitLines : List Char → List (List Char)
  | [] => [[]]
  | c :: cs =>
    if c = '\n' then [] :: splitLines cs
    else
      match splitLines cs with
      | [] => [[c]]
      | l :: ls => (c :: l) :: ls

/-- `hay.includes(needle)`: contiguous substring containment. -/
def jsIncludes (hay needle : List Char) : Bool :=
  hay.tails.any (fun t => needle.isPrefixOf t)

/-- `s.trim()`: strip whitespace from both ends. -/
def jsTrim (s : List Char) : List Char :=
  ((s.dropWhile Char.isWhitespace).reverse.dropWhile Char.isWhitespace).reverse

/-- `path.endsWith(suffix)` for the `String`-typed path keys. -/
def strEndsWith (s suffix : String) : Bool :=
  suffix.toList.isSuffixOf s.toList

/-- `interface FileIndex` of indexer.ts. -/
structure FileIndex where
  path : String
  lastModified : Nat
  symbols : List String
  content : List Char
  searchContent : List Char
  deriving Repr, DecidableEq

/-- The `type` argument of `indexFile`. -/
inductive FileType where
  | dependency
  | stdlib
  | workspace
  deriving Repr, DecidableEq

/-- A JS `Map<string, FileIndex>` as an association list in insertion
order. -/
abbrev FileMap := List (String × FileIndex)

/-- `m.has(k)` for a JS `Map`. -/
def mapHas (m : FileMap) (k : String) : Bool :=
  m.any (fun e => e.1 = k)

/-- `m.set(k, v)`: overwrite in place if the key is present, else append. -/
def mapSet (m : FileMap) (k : String) (v : FileIndex) : FileMap :=
  if mapHas m k then m.map (fun e => if e.1 = k then (k, v) else e)
  else m ++ [(k, v)]

/-- `m.delete(k)`. -/
def mapDelete (m : FileMap) (k : String) : FileMap :=
  m.filter (fun e => ¬ (e.1 = k))

/-- `new Map(entries)`: insert every entry in order. -/
def mapFromEntries (l : List (String × FileIndex)) : FileMap :=
  l.foldl (fun m e => mapSet m e.1 e.2) []

/-- `interface Index` of indexer.ts. -/
structure Index where
  version : String
  lastUpdated : Nat
  workspacePath : String
  goModHash : String
  goVersion : String
  workspace : FileMap
  dependencies : FileMap
  stdlib : FileMap
  deriving Repr, DecidableEq

/-- Ambient environment read by the indexer: vscode workspace state,
the `go` toolchain, the file system and the `find`-based scans.  A
`none` result of `fs` models a `statSync`/`readFileSync` throw; a `none`
`goEnvGOROOT` models a failing `go env GOROOT` subprocess. -/
structure Env where
  workspaceFolders : List String
  workspaceId : String
  goModHash : String
  goVersion : String
  fs : String → Option (Nat × List Char)
  symbolsOf : String → List Char → List String
  goFilesOf : String → List String
  modFilesOf : String → List String
  goEnvGOROOT : Option String
  dirExists : String → Bool
  stdlibFind : String → List String
  depFilesOf : String → List String

/-- The mutable fields of `GoIndexer` that the claims touch. -/
structure IndexerState where
  index : Index
  isBuilding : Bool
  currentWorkspace : String
  deriving Repr

/-- The `FileIndex` value constructed inside `indexFile` from a
successfully read file: original content plus its lowercase copy, and
the regex-extracted advisory symbols (abstracted as `symbolsOf`). -/
def mkFileIndex (symbolsOf : String → List Char → List String)
    (p : String) (mtime : Nat) (content : List Char) : FileIndex :=
  { path := p
    lastModified := mtime
    symbols := symbolsOf p content
    content := content
    searchContent := jsToLowerCase content }

/-- `indexFile`: read one file and insert it into the domain selected by
`type`; a read failure leaves the index unchanged (the catch swallows
the error). -/
def indexFile (env : Env) (idx : Index) (p : String) (ty : FileType) : Index :=
  match env.fs p with
  | none => idx
  | some (mtime, content) =>
    let fi := mkFileIndex env.symbolsOf p mtime content
    match ty with
    | .dependency => { idx with dependencies := mapSet idx.dependencies p fi }
    | .stdlib => { idx with stdlib := mapSet idx.stdlib p fi }
    | .workspace => { idx with workspace := mapSet idx.workspace p fi }

/-- Indexing a list of discovered files in order. -/
def indexFiles (env : Env) (files : List String) (ty : FileType) (idx : Index) : Index :=
  files.foldl (fun i p => indexFile env i p ty) idx

/-- `indexWorkspaceFiles`: per workspace folder, index the discovered
`.go` files and then the module files, all as `workspace`. -/
def indexWorkspaceFiles (env : Env) (idx : Index) : Index :=
  if env.workspaceFolders.isEmpty then idx
  else
    env.workspaceFolders.foldl
      (fun i folder =>
        indexFiles env (env.modFilesOf folder) .workspace
          (indexFiles env (env.goFilesOf folder) .workspace i))
      idx

/-- `indexGoStdlib`: resolve `GOROOT`, bail out (without error) when the
`go` command fails or `GOROOT/src` does not exist, else index the
discovered stdlib files. -/
def indexGoStdlib (env : Env) (idx : Index) : Index :=
  match env.goEnvGOROOT with
  | none => idx
  | some goroot =>
    if env.dirExists (goroot ++ "/src") then
      indexFiles env (env.stdlibFind (goroot ++ "/src")) .stdlib idx
    else idx

/-- `indexDependencies`: per workspace folder, index the resolved
module-cache/vendor files of the manifest's dependency set (the
resolution itself is environmental: `depFilesOf`). -/
def indexDependencies (env : Env) (idx : Index) : Index :=
  if env.workspaceFolders.isEmpty then idx
  else
    env.workspaceFolders.foldl
      (fun i folder => indexFiles env (env.depFilesOf folder) .dependency i)
      idx

/-! ## Storage codec (`saveIndexPart` / `loadIndexPart` and friends)

`sz l` abstracts `JSON.stringify(l).length` for an entry array `l`;
`szC chunks` abstracts `JSON.stringify({chunks, totalEntries,
chunkStrategy}).length`.  `chunksOf k l` is the slicing
`l.slice(i, i + k)` for `i = 0, k, 2k, …` that both the chunked and the
multi-file writers perform (implemented with an explicit fuel equal to
`l.length` so that it is structurally recursive and kernel-evaluable).
-/

/-- Fuel-driven slicing loop: at each step emit `l.take k` and continue
on `l.drop k`.  `fuel ≥ l.length` (together with `k > 0`) makes the fuel
irrelevant. -/
def chunksOfAux (k : Nat) : Nat → List α → List (List α)
  | 0, _ => []
  | _ + 1, [] => []
  | fuel + 1, l@(_ :: _) => l.take k :: chunksOfAux k fuel (l.drop k)

/-- Partition `l` into consecutive slices of `k` entries (last slice
shorter).  The writers only call this with `k > 0`. -/
def chunksOf (k : Nat) (l : List α) : List (List α) :=
  if k = 0 then (if l.isEmpty then [] else [l]) else chunksOfAux k l.length l

/-- The on-disk layout of one persisted index part: either the plain
JSON array, the `{chunks, totalEntries}` wrapper, the multi-file layout
(`-meta.json` descriptor plus `-part<i>.json` files), or no file at
all. -/
inductive SavedPart (α : Type) where
  | missing
  | direct (entries : List α)
  | chunked (chunks : List (List α)) (totalEntries : Nat)
  | multiFile (totalEntries totalFiles : Nat) (parts : List (List α))
  deriving Repr, DecidableEq

/-- `saveIndexPartMultiFile`: 2 000 entries per physical file,
`totalFiles = ceil(n / 2000)`; a part whose encoding exceeds 30 MB is
truncated to its first half instead of failing the save. -/
def saveIndexPartMultiFile (sz : List α → Nat) (data : List α) : SavedPart α :=
  let maxEntriesPerFile := 2000
  let totalFiles := (data.length + maxEntriesPerFile - 1) / maxEntriesPerFile
  let parts := (chunksOf maxEntriesPerFile data).map
    (fun fileData =>
      if 30 * 1024 * 1024 < sz fileData then fileData.take (fileData.length / 2)
      else fileData)
  .multiFile data.length totalFiles parts

/-- `saveIndexPart` for an entry array: direct encode for ≤ 1000 entries
whose encoding stays under 20 MB; multi-file for > 10 000 entries;
otherwise ultra-small chunks of `min 500 (max 100 (n/10))` entries
(a chunk whose encoding exceeds 50 MB is re-split into quarters), with a
final fallback to multi-file when the whole chunked wrapper exceeds
100 MB. -/
def saveIndexPart (sz : List α → Nat) (szC : List (List α) → Nat)
    (data : List α) : SavedPart α :=
  if data.length ≤ 1000 ∧ sz data ≤ 20 * 1024 * 1024 then .direct data
  else if 10000 < data.length then saveIndexPartMultiFile sz data
  else
    let ultraSmallChunkSize := min 500 (max 100 (data.length / 10))
    let chunks := (chunksOf ultraSmallChunkSize data).flatMap
      (fun c =>
        if 50 * 1024 * 1024 < sz c then chunksOf (ultraSmallChunkSize / 4) c
        else [c])
    if 100 * 1024 * 1024 < szC chunks then saveIndexPartMultiFile sz data
    else .chunked chunks data.length

/-- The chunk-reading loop of `loadIndexPart`: concatenate chunks,
truncating exactly at the 50 000-entry safety limit. -/
def loadChunksLoop : List (List α) → Nat → List α
  | [], _ => []
  | c :: cs, processedEntries =>
    if 50000 < processedEntries + c.length then c.take (50000 - processedEntries)
    else c ++ loadChunksLoop cs (processedEntries + c.length)

/-- The part-reading loop of `loadIndexPartMultiFile`: append each part
in full, then stop once the running total has reached 50 000 entries. -/
def loadMultiLoop : List (List α) → Nat → List α
  | [], _ => []
  | p :: ps, loadedEntries =>
    if 50000 ≤ loadedEntries + p.length then p
    else p ++ loadMultiLoop ps (loadedEntries + p.length)

/-- `loadIndexPart` (with `loadIndexPartMultiFile` inlined for the
multi-file layout): apply the 200 MB file-size and 100 MB string-length
guards (an oversized unit loads as empty), then decode the layout,
capping at the 50 000-entry safety limit; a missing part (with no
multi-file descriptor) loads as empty. -/
def loadIndexPart (sz : List α → Nat) (szC : List (List α) → Nat) :
    SavedPart α → List α
  | .missing => []
  | .direct entries =>
    if 200 * 1024 * 1024 < sz entries then []
    else if 100 * 1024 * 1024 < sz entries then []
    else if 50000 < entries.length then entries.take 50000
    else entries
  | .chunked chunks _ =>
    if 200 * 1024 * 1024 < szC chunks then []
    else if 100 * 1024 * 1024 < szC chunks then []
    else loadChunksLoop chunks 0
  | .multiFile _ totalFiles parts => loadMultiLoop (parts.take totalFiles) 0

/-- The metadata object written to the `-meta.json` unit by `saveIndex`. -/
structure Metadata where
  version : String
  lastUpdated : Nat
  workspacePath : String
  goModHash : String
  goVersion : String
  workspaceCount : Nat
  dependenciesCount : Nat
  stdlibCount : Nat
  format : String
  deriving Repr, DecidableEq

/-- The persisted split-format file set of one workspace identity. -/
structure SplitFiles where
  meta : Option Metadata
  workspacePart : SavedPart (String × FileIndex)
  dependenciesPart : SavedPart (String × FileIndex)
  stdlibPart : SavedPart (String × FileIndex)

/-- `saveIndex`: write the metadata unit (skipped when its encoding
exceeds the 10 MB non-array limit, `szMeta` abstracting that size) and
the three per-domain units via `saveIndexPart` on
`Array.from(map.entries())`. -/
def saveIndex (szMeta : Metadata → Nat)
    (sz : List (String × FileIndex) → Nat)
    (szC : List (List (String × FileIndex)) → Nat)
    (idx : Index) (now : Nat) : SplitFiles :=
  let metadata : Metadata :=
    { version := idx.version
      lastUpdated := now
      workspacePath := idx.workspacePath
      goModHash := idx.goModHash
      goVersion := idx.goVersion
      workspaceCount := idx.workspace.length
      dependenciesCount := idx.dependencies.length
      stdlibCount := idx.stdlib.length
      format := "split" }
  { meta := if 10 * 1024 * 1024 < szMeta metadata then none else some metadata
    workspacePart := saveIndexPart sz szC idx.workspace
    dependenciesPart := saveIndexPart sz szC idx.dependencies
    stdlibPart := saveIndexPart sz szC idx.stdlib }

/-- `loadSplitIndex`: validate the metadata (layout tag, workspace
identity, format version, go.mod hash — in that order; any mismatch is a
cache miss `none`, not an error), then load the three parts and rebuild
the in-memory maps.  Note: the stored `goVersion` is carried over but
never compared against the current toolchain. -/
def loadSplitIndex (sz : List (String × FileIndex) → Nat)
    (szC : List (List (String × FileIndex)) → Nat)
    (env : Env) (metadata : Metadata)
    (workspacePart dependenciesPart stdlibPart : SavedPart (String × FileIndex)) :
    Option Index :=
  if metadata.format ≠ "split" then none
  else if metadata.workspacePath ≠ env.workspaceId then none
  else if metadata.version ≠ "2.1" then none
  else if env.goModHash ≠ metadata.goModHash then none
  else
    some
      { version := metadata.version
        lastUpdated := metadata.lastUpdated
        workspacePath := metadata.workspacePath
        goModHash := metadata.goModHash
        goVersion := metadata.goVersion
        workspace := mapFromEntries (loadIndexPart sz szC workspacePart)
        dependencies := mapFromEntries (loadIndexPart sz szC dependenciesPart)
        stdlib := mapFromEntries (loadIndexPart sz szC stdlibPart) }

/-- The split-format branch of `loadIndex`: the metadata unit must exist
on disk, then `loadSplitIndex` runs (the deprecated legacy single-blob
fallback is outside the claims and not modelled). -/
def loadIndexSplit (sz : List (String × FileIndex) → Nat)
    (szC : List (List (String × FileIndex)) → Nat)
    (env : Env) (files : SplitFiles) : Option Index :=
  match files.meta with
  | none => none
  | some m =>
    loadSplitIndex sz szC env m files.workspacePart files.dependenciesPart
      files.stdlibPart

/-! ## Index lifecycle and incremental maintenance -/

/-- The initial in-memory index built in the `GoIndexer` constructor
(and in `switchWorkspace`). -/
def initialIndex (currentWorkspace : String) : Index :=
  { version := "2.1"
    lastUpdated := 0
    workspacePath := currentWorkspace
    goModHash := ""
    goVersion := ""
    workspace := []
    dependencies := []
    stdlib := [] }

/-- `buildIndex`: set the build flag, return early (flag reset, nothing
persisted) when there is no workspace folder; otherwise clear all three
domains, refresh identity and fingerprints, index the three domains in
order, persist, and reset the flag.  The `Bool` of the result records
whether `saveIndex` ran. -/
def buildIndex (env : Env) (st : IndexerState) : IndexerState × Bool :=
  let st1 : IndexerState := { st with isBuilding := true }
  if env.workspaceFolders.isEmpty then ({ st1 with isBuilding := false }, false)
  else
    let idx0 : Index :=
      { st1.index with
        workspace := []
        dependencies := []
        stdlib := []
        workspacePath := st1.currentWorkspace
        goModHash := env.goModHash
        goVersion := env.goVersion }
    let idx1 := indexWorkspaceFiles env idx0
    let idx2 := indexGoStdlib env idx1
    let idx3 := indexDependencies env idx2
    ({ st1 with index := idx3, isBuilding := false }, true)

/-- `updateDependencyIndex`: bail out when there is no workspace root or
when the freshly computed go.mod hash equals the stored one (no-op,
nothing persisted); otherwise clear only the dependency domain, store
the new hash, re-index dependencies and persist.  The `Bool` records
whether `saveIndex` ran. -/
def updateDependencyIndex (env : Env) (idx : Index) : Index × Bool :=
  match env.workspaceFolders.head? with
  | none => (idx, false)
  | some _ =>
    if env.goModHash = idx.goModHash then (idx, false)
    else
      let cleared : Index := { idx with dependencies := [], goModHash := env.goModHash }
      (indexDependencies env cleared, true)

/-- The `onDidDelete` handler of `setupWorkspaceFileWatcher`: remove the
path from the workspace domain immediately (no debounce) and persist. -/
def handleWorkspaceFileDelete (idx : Index) (p : String) : Index :=
  { idx with workspace := mapDelete idx.workspace p }

/-! ## Query engine (`searchInIndex` / `searchInFileIndex`) -/

/-- The scanning loop of `searchInFileIndex`: iterate over the lowercase
lines (with `originalLines` consulted at the same position), stop at the
end or once `maxMatchesPerFile = 10` matches are collected; fuzzy mode
tests the lowercase line against the lowercased pattern, exact mode
tests the original line against the pattern as-is; a match records the
0-based line number with the original line. -/
def searchGo (pat : List Char) (fuzzy : Bool) (originalLines : List (List Char)) :
    List (List Char) → Nat → Nat → List (Nat × List Char)
  | [], _, _ => []
  | searchLine :: rest, i, matched =>
    if 10 ≤ matched then []
    else
      let originalLine := originalLines.getD i []
      let isMatch :=
        if fuzzy then jsIncludes searchLine (jsToLowerCase pat)
        else jsIncludes originalLine pat
      if isMatch then
        (i, originalLine) :: searchGo pat fuzzy originalLines rest (i + 1) (matched + 1)
      else searchGo pat fuzzy originalLines rest (i + 1) matched

/-- `searchInFileIndex`: split both stored copies into lines and run the
capped scanning loop. -/
def searchInFileIndex (fileIndex : FileIndex) (pat : List Char) (fuzzy : Bool) :
    List (Nat × List Char) :=
  searchGo pat fuzzy (splitLines fileIndex.content) (splitLines fileIndex.searchContent) 0 0

/-- One entry of a per-domain result list of `searchInIndex`. -/
structure FileSearchResult where
  filePath : String
  «matches» : List (Nat × List Char)
  deriving Repr, DecidableEq

/-- The per-domain loop of `searchInIndex`: a file contributes exactly
when it has at least one match. -/
def searchDomain (dom : FileMap) (pat : List Char) (fuzzy : Bool) :
    List FileSearchResult :=
  dom.filterMap
    (fun e =>
      let ms := searchInFileIndex e.2 pat fuzzy
      if ms.isEmpty then none else some ⟨e.1, ms⟩)

/-- The three per-domain result lists returned by `searchInIndex`. -/
structure SearchResults where
  workspace : List FileSearchResult
  dependencies : List FileSearchResult
  stdlib : List FileSearchResult
  deriving Repr, DecidableEq

/-- `searchInIndex` of the indexer: scan the three domains in order. -/
def searchInIndex (idx : Index) (pat : List Char) (fuzzy : Bool) : SearchResults :=
  { workspace := searchDomain idx.workspace pat fuzzy
    dependencies := searchDomain idx.dependencies pat fuzzy
    stdlib := searchDomain idx.stdlib pat fuzzy }

/-- `hasIndex`: any domain non-empty. -/
def hasIndex (idx : Index) : Bool :=
  0 < idx.dependencies.length || 0 < idx.stdlib.length || 0 < idx.workspace.length

/-! ## Extension-side result combination (the caller of the engine) -/

/-- `enum ResultSource` of the extension module. -/
inductive ResultSource where
  | workspace
  | dependency
  | stdlib
  deriving Repr, DecidableEq

/-- One flattened `SearchResult` of the extension module (the
`vscode.Location` is reduced to its path and 0-based line). -/
structure ExtResult where
  fsPath : String
  line : Nat
  content : List Char
  source : ResultSource
  deriving Repr, DecidableEq

/-- The three per-domain flattening loops of the extension-side
`searchInIndex`: one `ExtResult` per match, content trimmed. -/
def flattenFileResults (src : ResultSource) (frs : List FileSearchResult) :
    List ExtResult :=
  frs.flatMap
    (fun fr => fr.matches.map (fun m => ⟨fr.filePath, m.1, jsTrim m.2, src⟩))

/-- The extension-side `searchInIndex`: empty while the index is being
built or absent; otherwise flatten the engine's per-domain results in
domain order, then reorder as
`workspaceNonTest ++ dependencyNonTest ++ stdlibNonTest ++ testResults`
(all `_test.go` results of every domain together at the end) and cap at
100. -/
def extSearchInIndex (pat : List Char) (idx : Index)
    (building fuzzy : Bool) : List ExtResult :=
  if building then []
  else if ¬ hasIndex idx then []
  else
    let ir := searchInIndex idx pat fuzzy
    let results :=
      flattenFileResults .workspace ir.workspace ++
      flattenFileResults .dependency ir.dependencies ++
      flattenFileResults .stdlib ir.stdlib
    let workspaceNonTest := results.filter
      (fun r => decide (r.source = .workspace) && !strEndsWith r.fsPath "_test.go")
    let dependencyNonTest := results.filter
      (fun r => decide (r.source = .dependency) && !strEndsWith r.fsPath "_test.go")
    let stdlibNonTest := results.filter
      (fun r => decide (r.source = .stdlib) && !strEndsWith r.fsPath "_test.go")
    let testResults := results.filter (fun r => strEndsWith r.fsPath "_test.go")
    (workspaceNonTest ++ dependencyNonTest ++ stdlibNonTest ++ testResults).take 100

/-- Rank of a combined result under the ordering the extension actually
produces: the three domains for non-test paths, then every `_test.go`
result. -/
def resultKey (r : ExtResult) : Nat :=
  if strEndsWith r.fsPath "_test.go" then 3
  else
    match r.source with
    | .workspace => 0
    | .dependency => 1
    | .stdlib => 2

/-! ## Auxiliary enumeration used only to state search characterizations -/

/-- `enumLinesFrom i l` pairs every element of `l` with its position,
starting at `i`. -/
def enumLinesFrom (i : Nat) : List α → List (Nat × α)
  | [] => []
  | a :: l => (i, a) :: enumLinesFrom (i + 1) l

/-- Positions from 0. -/
def enumLines (l : List α) : List (Nat × α) := enumLinesFrom 0 l

/-! ## Concrete sample data for witnesses and counterexamples -/

/-- Symbol extraction that finds nothing (the advisory symbols play no
role in any claim). -/
def noSymbols : String → List Char → List String := fun _ _ => []

/-- An environment with no workspace, no toolchain and an empty file
system. -/
def emptyEnv : Env :=
  { workspaceFolders := []
    workspaceId := "no-workspace"
    goModHash := ""
    goVersion := ""
    fs := fun _ => none
    symbolsOf := noSymbols
    goFilesOf := fun _ => []
    modFilesOf := fun _ => []
    goEnvGOROOT := none
    dirExists := fun _ => false
    stdlibFind := fun _ => []
    depFilesOf := fun _ => [] }

/-- A one-line Go file mentioning `Foo`, as produced by `indexFile`. -/
def fooFile (p : String) : FileIndex := mkFileIndex noSymbols p 0 "func Foo()".toList

/-- Index holding the same vendored file in both the workspace and the
dependency domain, as `buildIndex` produces when a `vendor` directory
exists (`indexWorkspaceFiles` discovers `vendor/**/*.go` via its `find`
over the workspace root, and `indexVendorDirectory` indexes the same
files as dependencies). -/
def vendorOverlapIndex : Index :=
  { initialIndex "/ws" with
    workspace := [("/ws/vendor/lib/v.go", fooFile "/ws/vendor/lib/v.go")]
    dependencies := [("/ws/vendor/lib/v.go", fooFile "/ws/vendor/lib/v.go")] }

/-- Index with two matching workspace files, used to witness the
deletion property. -/
def twoFileIndex : Index :=
  { initialIndex "/ws" with
    workspace := [("/ws/a.go", fooFile "/ws/a.go"), ("/ws/b.go", fooFile "/ws/b.go")] }

/-- Index with a matching workspace test file and a matching stdlib
file, exhibiting the actual combined ordering. -/
def testOrderIndex : Index :=
  { initialIndex "/ws" with
    workspace := [("/ws/a_test.go", fooFile "/ws/a_test.go")]
    stdlib := [("/goroot/src/x.go", fooFile "/goroot/src/x.go")] }

/-- Index whose `goVersion` differs from the sample environment's
current toolchain. -/
def goVersionIndex : Index :=
  { initialIndex "/ws" with goVersion := "go version go1.20 linux/amd64" }

/-- Environment matching `/ws` with an upgraded toolchain. -/
def newGoEnv : Env :=
  { emptyEnv with workspaceId := "/ws", goVersion := "go version go1.99 linux/amd64" }

/-- Index with a two-entry dependency domain, used to exhibit save-side
truncation. -/
def twoDepIndex : Index :=
  { initialIndex "/ws" with
    dependencies := [("/dep/a.go", fooFile "/dep/a.go"), ("/dep/b.go", fooFile "/dep/b.go")] }

/-- Length of the largest physical file of a multi-file layout (used to
bound how far past the 50 000-entry limit `loadMultiLoop` can land). -/
def maxPartLen (parts : List (List α)) : Nat :=
  parts.foldr (fun p m => max p.length m) 0

/-- An on-disk multi-file part layout whose 26 physical files hold
24 × 2000, then 1000, then 2000 entries — the shape `saveIndexPartMultiFile`
writes for 52 000 entries when the 25th part exceeds the 30 MB per-part
ceiling and is truncated to its first half. -/
def overfullParts : List (List Nat) :=
  List.replicate 24 (List.replicate 2000 0) ++ [List.replicate 1000 0, List.replicate 2000 0]

/-- An index whose stored go.mod hash matches `depUpdateEnv`. -/
def h2Index : Index := { initialIndex "/ws" with goModHash := "h2" }

/-- Environment of a workspace `/ws` whose manifest currently hashes to
`h2` and resolves to a single dependency file. -/
def depUpdateEnv : Env :=
  { emptyEnv with
    workspaceFolders := ["/ws"]
    workspaceId := "/ws"
    goModHash := "h2"
    depFilesOf := fun _ => ["/dep/x.go"]
    fs := fun p => if p = "/dep/x.go" then some (0, "func Bar()".toList) else none }

/-! # Theorems -/

/-! ## The character-wise lowercase map fixes exactly the newline -/

theorem toLower_eq_newline {c : Char} (h : c.toLower = '\n') : c = '\n' := by
  unfold Char.toLower at h
  simp only [] at h
  by_cases hc : c.toNat ≥ 65 ∧ c.toNat ≤ 90
  · rw [if_pos hc] at h
    exfalso
    obtain ⟨h1, h2⟩ := hc
    generalize hn : Char.toNat c = n at h1 h2 h
    interval_cases n <;> exact absurd h (by decide)
  · rw [if_neg hc] at h
    exact h

/-! ## `splitLines` lemmas -/

theorem splitLines_ne_nil (s : List Char) : splitLines s ≠ [] := by
  cases s with
  | nil => simp [splitLines]
  | cons c cs =>
    by_cases hc : c = '\n'
    · simp [splitLines, hc]
    · simp only [splitLines, if_neg hc]
      cases splitLines cs <;> simp

theorem splitLines_cons_of_ne {c : Char} {cs l : List Char} {ls : List (List Char)}
    (hc : c ≠ '\n') (h : splitLines cs = l :: ls) :
    splitLines (c :: cs) = (c :: l) :: ls := by
  simp [splitLines, hc, h]

/-- Lowercasing commutes with line splitting: the stored
`searchContent` is line-aligned with `content`. -/
theorem splitLines_jsToLowerCase (s : List Char) :
    splitLines (jsToLowerCase s) = (splitLines s).map jsToLowerCase := by
  induction s with
  | nil => simp [splitLines, jsToLowerCase]
  | cons c cs ih =>
    by_cases hc : c = '\n'
    · subst hc
      show splitLines (Char.toLower '\n' :: jsToLowerCase cs) = _
      have hl : Char.toLower '\n' = '\n' := by decide
      rw [hl]
      simpa [splitLines, jsToLowerCase] using ih
    · have hlc : c.toLower ≠ '\n' := fun h => hc (toLower_eq_newline h)
      obtain ⟨l, ls, heq⟩ := List.exists_cons_of_ne_nil (splitLines_ne_nil cs)
      have heq2 : splitLines (jsToLowerCase cs) = jsToLowerCase l :: ls.map jsToLowerCase := by
        rw [ih, heq]; simp
      have lhs : splitLines (jsToLowerCase (c :: cs))
          = (c.toLower :: jsToLowerCase l) :: ls.map jsToLowerCase := by
        show splitLines (c.toLower :: jsToLowerCase cs) = _
        exact splitLines_cons_of_ne hlc heq2
      rw [lhs, splitLines_cons_of_ne hc heq]
      simp [jsToLowerCase]

/-- C7: For every IndexedFile produced by indexing (in any domain),
splitting its `content` and its `searchContent` (the lowercased content)
on line breaks yields the same number of lines, with index-for-index
correspondence: line i of the normalized content is the lowercase form
of line i of the content.  (`indexFile` stores exactly
`mkFileIndex symbolsOf p mtime content` into the chosen domain.) -/
theorem c7_line_alignment (symbolsOf : String → List Char → List String)
    (p : String) (mtime : Nat) (content : List Char) :
    splitLines (mkFileIndex symbolsOf p mtime content).searchContent
        = (splitLines (mkFileIndex symbolsOf p mtime content).content).map jsToLowerCase
    ∧ (splitLines (mkFileIndex symbolsOf p mtime content).searchContent).length
        = (splitLines (mkFileIndex symbolsOf p mtime content).content).length := by
  refine ⟨splitLines_jsToLowerCase content, ?_⟩
  rw [show (mkFileIndex symbolsOf p mtime content).searchContent = jsToLowerCase content from rfl,
    splitLines_jsToLowerCase content]
  simp [mkFileIndex]

/-! ## Characterizing the capped scanning loop of `searchInFileIndex` -/

theorem getD_of_drop {l : List α} {i : Nat} {a : α} {t : List α} {d : α}
    (h : l.drop i = a :: t) : l.getD i d = a := by
  induction i generalizing l with
  | zero => simp at h; simp [h]
  | succ n ih =>
    cases l with
    | nil => simp at h
    | cons b l2 =>
      simp only [List.drop_succ_cons] at h
      simpa using ih h

theorem drop_succ_of_drop {l : List α} {i : Nat} {a : α} {t : List α}
    (h : l.drop i = a :: t) : l.drop (i + 1) = t := by
  induction i generalizing l with
  | zero => simp at h; simp [h]
  | succ n ih =>
    cases l with
    | nil => simp at h
    | cons b l2 =>
      simp only [List.drop_succ_cons] at h
      simpa using ih h

/-- The loop of `searchInFileIndex`, run over `(origLines.drop i).map g`
with counter `matched`, returns the enumerated original lines satisfying
the mode's predicate, truncated to the remaining match budget. -/
theorem searchGo_eq (pat : List Char) (fz : Bool) (g : List Char → List Char)
    (origLines : List (List Char)) :
    ∀ (sls : List (List Char)) (i matched : Nat),
      sls = (origLines.drop i).map g → matched ≤ 10 →
      searchGo pat fz origLines sls i matched =
        ((enumLinesFrom i (origLines.drop i)).filter
          (fun q => if fz then jsIncludes (g q.2) (jsToLowerCase pat)
                    else jsIncludes q.2 pat)).take (10 - matched) := by
  intro sls
  induction sls with
  | nil =>
    intro i matched hsl _
    have hnil : origLines.drop i = [] := by
      cases h : origLines.drop i with
      | nil => rfl
      | cons a t => rw [h] at hsl; simp at hsl
    rw [hnil]
    simp [searchGo, enumLinesFrom]
  | cons sl rest ih =>
    intro i matched hsl hm
    cases h : origLines.drop i with
    | nil => rw [h] at hsl; simp at hsl
    | cons ol t =>
      rw [h] at hsl
      simp only [List.map_cons, List.cons.injEq] at hsl
      obtain ⟨hsl1, hsl2⟩ := hsl
      have hgd : origLines.getD i [] = ol := getD_of_drop h
      have hdt : origLines.drop (i + 1) = t := drop_succ_of_drop h
      by_cases h10 : 10 ≤ matched
      · have hmeq : matched = 10 := Nat.le_antisymm hm h10
        subst hmeq
        simp [searchGo]
      · have hrest := ih (i + 1) (matched + 1) (by rw [hdt, hsl2]) (by omega)
        have hrest2 := ih (i + 1) matched (by rw [hdt, hsl2]) (by omega)
        rw [enumLinesFrom]
        simp only [searchGo, if_neg h10, hgd, hsl1]
        by_cases hp : (if fz then jsIncludes (g ol) (jsToLowerCase pat)
            else jsIncludes ol pat) = true
        · rw [if_pos hp, List.filter_cons_of_pos (by simpa using hp)]
          have harith : 10 - matched = (10 - (matched + 1)) + 1 := by omega
          rw [harith, List.take_succ_cons, hrest, hdt]
        · rw [if_neg hp, List.filter_cons_of_neg (by simpa using hp)]
          rw [hrest2, hdt]

/-- C2: exact-mode search scans the original content lines for
case-sensitive substring containment (so a line that contains the
pattern only after a case change is never reported), fuzzy-mode search
reports exactly the lines whose lowercase form contains the lowercase
pattern, and both modes return the matching lines (with their 0-based
numbers and original text) truncated to the per-file cap of 10, the
scan stopping once the cap is reached. -/
theorem c2_mode_semantics (symbolsOf : String → List Char → List String)
    (p : String) (mtime : Nat) (content pat : List Char) :
    searchInFileIndex (mkFileIndex symbolsOf p mtime content) pat false
        = ((enumLines (splitLines content)).filter
            (fun q => jsIncludes q.2 pat)).take 10
    ∧ searchInFileIndex (mkFileIndex symbolsOf p mtime content) pat true
        = ((enumLines (splitLines content)).filter
            (fun q => jsIncludes (jsToLowerCase q.2) (jsToLowerCase pat))).take 10
    ∧ (searchInFileIndex (mkFileIndex symbolsOf p mtime content) pat false).length ≤ 10
    ∧ (searchInFileIndex (mkFileIndex symbolsOf p mtime content) pat true).length ≤ 10 := by
  have hsl : splitLines (jsToLowerCase content)
      = ((splitLines content).drop 0).map jsToLowerCase := by
    simpa using splitLines_jsToLowerCase content
  have hfalse := searchGo_eq pat false jsToLowerCase (splitLines content)
    (splitLines (jsToLowerCase content)) 0 0 hsl (by omega)
  have htrue := searchGo_eq pat true jsToLowerCase (splitLines content)
    (splitLines (jsToLowerCase content)) 0 0 hsl (by omega)
  refine ⟨hfalse, htrue, ?_, ?_⟩
  · rw [show searchInFileIndex (mkFileIndex symbolsOf p mtime content) pat false
        = searchGo pat false (splitLines content) (splitLines (jsToLowerCase content)) 0 0
        from rfl, hfalse]
    exact List.length_take_le _ _
  · rw [show searchInFileIndex (mkFileIndex symbolsOf p mtime content) pat true
        = searchGo pat true (splitLines content) (splitLines (jsToLowerCase content)) 0 0
        from rfl, htrue]
    exact List.length_take_le _ _

/-! ## Deletion visibility -/

/-- C6 (amended): after the Remove File operation for a path `p`, a
Search returns zero workspace-domain matches referencing `p` (no
rebuild involved); matches referencing `p` can however still come from
the dependency (or stdlib) domain when the same path is indexed there
too, as happens for vendored files. -/
theorem c6_delete_amended (idx : Index) (p : String) (pat : List Char) (fz : Bool)
    (r : FileSearchResult)
    (hr : r ∈ (searchInIndex (handleWorkspaceFileDelete idx p) pat fz).workspace) :
    r.filePath ≠ p := by
  simp only [searchInIndex, searchDomain, handleWorkspaceFileDelete, mapDelete,
    List.mem_filterMap, List.mem_filter, decide_eq_true_eq] at hr
  obtain ⟨e, ⟨_, hne⟩, hfe⟩ := hr
  by_cases hE : (searchInFileIndex e.2 pat fz).isEmpty = true
  · rw [if_pos hE] at hfe
    exact absurd hfe (by simp)
  · rw [if_neg hE] at hfe
    have hfp : r.filePath = e.1 := by
      rw [Option.some.injEq] at hfe
      rw [← hfe]
    rw [hfp]
    exact hne

/-- Witness for C6 (amended): deleting `/ws/b.go` from a two-file
workspace leaves a search hit only for the other file. -/
theorem c6_delete_amended_witness : ("/ws/a.go" : String) ≠ "/ws/b.go" :=
  c6_delete_amended twoFileIndex "/ws/b.go" "Foo".toList false
    ⟨"/ws/a.go", [(0, "func Foo()".toList)]⟩ (by decide)

/-- Counterexample to C6 as stated: the vendored path is present in the
workspace domain, yet after Remove File for it an immediate Search still
returns a match referencing it, because `indexWorkspaceFiles` and the
vendor branch of the dependency indexer store the same path in two
domains and the deletion handler only touches `index.workspace`. -/
theorem c6_delete_cex :
    mapHas vendorOverlapIndex.workspace "/ws/vendor/lib/v.go" = true
    ∧ (searchInIndex (handleWorkspaceFileDelete vendorOverlapIndex "/ws/vendor/lib/v.go")
        "Foo".toList false).dependencies.map FileSearchResult.filePath
      = ["/ws/vendor/lib/v.go"] := by
  constructor
  · decide
  · decide

/-! ## Combined result ordering -/

theorem pairwise_key_const {l : List ExtResult} {k : Nat}
    (h : ∀ x ∈ l, resultKey x = k) :
    l.Pairwise (fun a b => resultKey a ≤ resultKey b) := by
  induction l with
  | nil => simp
  | cons a t ih =>
    rw [List.pairwise_cons]
    constructor
    · intro b hb
      rw [h a (by simp), h b (by simp [hb])]
    · exact ih (fun x hx => h x (by simp [hx]))

theorem resultKey_le_three (r : ExtResult) : resultKey r ≤ 3 := by
  unfold resultKey
  by_cases h : strEndsWith r.fsPath "_test.go" = true
  · simp [h]
  · rw [if_neg h]
    cases r.source <;> simp

theorem combine_sorted (results : List ExtResult) :
    ((results.filter
        (fun r => decide (r.source = ResultSource.workspace) && !strEndsWith r.fsPath "_test.go")
      ++ results.filter
        (fun r => decide (r.source = ResultSource.dependency) && !strEndsWith r.fsPath "_test.go")
      ++ results.filter
        (fun r => decide (r.source = ResultSource.stdlib) && !strEndsWith r.fsPath "_test.go")
      ++ results.filter (fun r => strEndsWith r.fsPath "_test.go")).take 100).Pairwise
      (fun a b => resultKey a ≤ resultKey b) := by
  apply List.Pairwise.sublist (List.take_sublist _ _)
  have hA : ∀ x ∈ results.filter
      (fun r => decide (r.source = ResultSource.workspace) && !strEndsWith r.fsPath "_test.go"),
      resultKey x = 0 := by
    intro x hx
    simp only [List.mem_filter, Bool.and_eq_true, decide_eq_true_eq, Bool.not_eq_true'] at hx
    simp [resultKey, hx.2.1, hx.2.2]
  have hB : ∀ x ∈ results.filter
      (fun r => decide (r.source = ResultSource.dependency) && !strEndsWith r.fsPath "_test.go"),
      resultKey x = 1 := by
    intro x hx
    simp only [List.mem_filter, Bool.and_eq_true, decide_eq_true_eq, Bool.not_eq_true'] at hx
    simp [resultKey, hx.2.1, hx.2.2]
  have hC : ∀ x ∈ results.filter
      (fun r => decide (r.source = ResultSource.stdlib) && !strEndsWith r.fsPath "_test.go"),
      resultKey x = 2 := by
    intro x hx
    simp only [List.mem_filter, Bool.and_eq_true, decide_eq_true_eq, Bool.not_eq_true'] at hx
    simp [resultKey, hx.2.1, hx.2.2]
  have hD : ∀ x ∈ results.filter (fun r => strEndsWith r.fsPath "_test.go"),
      resultKey x = 3 := by
    intro x hx
    simp only [List.mem_filter] at hx
    simp [resultKey, hx.2]
  rw [List.pairwise_append]
  refine ⟨?_, pairwise_key_const hD, ?_⟩
  · rw [List.pairwise_append]
    refine ⟨?_, pairwise_key_const hC, ?_⟩
    · rw [List.pairwise_append]
      refine ⟨pairwise_key_const hA, pairwise_key_const hB, ?_⟩
      intro a ha b hb
      rw [hA a ha, hB b hb]
      omega
    · intro a ha b hb
      rw [hC b hb]
      rcases List.mem_append.mp ha with hmem | hmem
      · rw [hA a hmem]; omega
      · rw [hB a hmem]; omega
  · intro a ha b hb
    rw [hD b hb]
    exact resultKey_le_three a

/-- C3 (amended): the combined list is capped at 100 and is sorted by
the rank that the extension actually produces: workspace, dependency
and stdlib non-test results in this order, followed by all `_test.go`
results of every domain (rather than test results interleaved within
each domain group). -/
theorem c3_combination_amended (pat : List Char) (idx : Index) (building fz : Bool) :
    (extSearchInIndex pat idx building fz).length ≤ 100
    ∧ (extSearchInIndex pat idx building fz).Pairwise
        (fun a b => resultKey a ≤ resultKey b) := by
  unfold extSearchInIndex
  by_cases hb : building = true
  · rw [if_pos hb]
    exact ⟨by simp, by simp⟩
  · rw [if_neg hb]
    by_cases hi : hasIndex idx = true
    · rw [if_neg (fun h => h hi)]
      exact ⟨List.length_take_le _ _, combine_sorted _⟩
    · rw [if_pos hi]
      exact ⟨by simp, by simp⟩

/-- Counterexample to C3 as stated: with one matching workspace test
file and one matching stdlib file, the combined list places the
stdlib-sourced result before the workspace-sourced one, contradicting
"workspace results before dependency results before standard-library
results, and within each group non-test before test". -/
theorem c3_combination_cex :
    (extSearchInIndex "Foo".toList testOrderIndex false false).map
        (fun r => (r.source, r.fsPath))
      = [(ResultSource.stdlib, "/goroot/src/x.go"),
         (ResultSource.workspace, "/ws/a_test.go")] := by
  decide

/-! ## Chunk slicing lemmas -/

theorem chunksOfAux_nil (k fuel : Nat) : chunksOfAux k fuel ([] : List α) = [] := by
  cases fuel <;> rfl

theorem chunksOfAux_flatten {k : Nat} (hk : 0 < k) :
    ∀ (fuel : Nat) (l : List α), l.length ≤ fuel →
    (chunksOfAux k fuel l).flatten = l := by
  intro fuel
  induction fuel with
  | zero =>
    intro l h
    have : l = [] := List.eq_nil_of_length_eq_zero (Nat.le_zero.mp h)
    subst this
    rfl
  | succ n ih =>
    intro l h
    cases l with
    | nil => rfl
    | cons a t =>
      show (List.take k (a :: t) :: chunksOfAux k n ((a :: t).drop k)).flatten = a :: t
      rw [List.flatten_cons, ih ((a :: t).drop k)
        (by simp only [List.length_drop, List.length_cons]
            simp only [List.length_cons] at h
            omega)]
      exact List.take_append_drop k (a :: t)

theorem chunksOf_flatten (k : Nat) (l : List α) : (chunksOf k l).flatten = l := by
  unfold chunksOf
  by_cases hk : k = 0
  · rw [if_pos hk]
    cases l <;> simp
  · rw [if_neg hk]
    exact chunksOfAux_flatten (Nat.pos_of_ne_zero hk) l.length l le_rfl

theorem chunksOfAux_ne_nil {k : Nat} (hk : 0 < k) :
    ∀ (fuel : Nat) (l : List α), ∀ c ∈ chunksOfAux k fuel l, c ≠ [] := by
  intro fuel
  induction fuel with
  | zero => intro l c hc; simp [chunksOfAux] at hc
  | succ n ih =>
    intro l c hc
    cases l with
    | nil => simp [chunksOfAux] at hc
    | cons a t =>
      rw [show chunksOfAux k (n + 1) (a :: t)
          = List.take k (a :: t) :: chunksOfAux k n ((a :: t).drop k) from rfl] at hc
      rcases List.mem_cons.mp hc with h | h
      · subst h
        cases k with
        | zero => omega
        | succ m => simp
      · exact ih _ c h

theorem chunksOf_ne_nil {k : Nat} (hk : 0 < k) (l : List α) :
    ∀ c ∈ chunksOf k l, c ≠ [] := by
  unfold chunksOf
  rw [if_neg (Nat.pos_iff_ne_zero.mp hk)]
  exact chunksOfAux_ne_nil hk l.length l

theorem chunksOfAux_length {k : Nat} (hk : 0 < k) :
    ∀ (fuel : Nat) (l : List α), l.length ≤ fuel →
    (chunksOfAux k fuel l).length = (l.length + k - 1) / k := by
  intro fuel
  induction fuel with
  | zero =>
    intro l h
    have : l = [] := List.eq_nil_of_length_eq_zero (Nat.le_zero.mp h)
    subst this
    simp [chunksOfAux, Nat.div_eq_of_lt (by omega : k - 1 < k)]
  | succ n ih =>
    intro l h
    cases l with
    | nil => simp [chunksOfAux, Nat.div_eq_of_lt (by omega : k - 1 < k)]
    | cons a t =>
      rw [show chunksOfAux k (n + 1) (a :: t)
          = List.take k (a :: t) :: chunksOfAux k n ((a :: t).drop k) from rfl]
      rw [List.length_cons, ih ((a :: t).drop k)
        (by simp only [List.length_drop, List.length_cons]
            simp only [List.length_cons] at h
            omega)]
      simp only [List.length_drop, List.length_cons]
      by_cases hm : t.length + 1 ≤ k
      · have h0 : t.length + 1 - k = 0 := by omega
        rw [h0, Nat.div_eq_of_lt (by omega : 0 + k - 1 < k),
          Nat.div_eq_of_lt_le (by omega : 1 * k ≤ t.length + 1 + k - 1)
            (by omega : t.length + 1 + k - 1 < (1 + 1) * k)]
      · have hsplit : t.length + 1 + k - 1 = (t.length + 1 - k + k - 1) + k := by omega
        rw [hsplit, Nat.add_div_right _ hk]

theorem chunksOf_length {k : Nat} (hk : 0 < k) (l : List α) :
    (chunksOf k l).length = (l.length + k - 1) / k := by
  unfold chunksOf
  rw [if_neg (Nat.pos_iff_ne_zero.mp hk)]
  exact chunksOfAux_length hk l.length l le_rfl

/-! ## Loader loop lemmas -/

theorem loadChunksLoop_eq_flatten :
    ∀ (chunks : List (List α)) (processed : Nat),
    processed + chunks.flatten.length ≤ 50000 →
    loadChunksLoop chunks processed = chunks.flatten := by
  intro chunks
  induction chunks with
  | nil => intro processed _; rfl
  | cons c cs ih =>
    intro processed h
    rw [List.flatten_cons, List.length_append] at h
    rw [show loadChunksLoop (c :: cs) processed
        = if 50000 < processed + c.length then c.take (50000 - processed)
          else c ++ loadChunksLoop cs (processed + c.length) from rfl]
    rw [if_neg (by omega), ih (processed + c.length) (by omega)]
    rfl

theorem loadMultiLoop_eq_flatten :
    ∀ (parts : List (List α)) (loaded : Nat),
    loaded + parts.flatten.length ≤ 50000 →
    (∀ p ∈ parts, p ≠ []) →
    loadMultiLoop parts loaded = parts.flatten := by
  intro parts
  induction parts with
  | nil => intro loaded _ _; rfl
  | cons p ps ih =>
    intro loaded h hne
    rw [List.flatten_cons, List.length_append] at h
    rw [show loadMultiLoop (p :: ps) loaded
        = if 50000 ≤ loaded + p.length then p
          else p ++ loadMultiLoop ps (loaded + p.length) from rfl]
    by_cases hstop : 50000 ≤ loaded + p.length
    · rw [if_pos hstop]
      have hlen : ps.flatten.length = 0 := by omega
      have hfl : ps.flatten = [] := List.eq_nil_of_length_eq_zero hlen
      cases ps with
      | nil => simp
      | cons q qs =>
        exfalso
        rw [List.flatten_cons] at hfl
        have hq : q = [] := (List.append_eq_nil.mp hfl).1
        exact hne q (by simp) hq
    · rw [if_neg hstop, ih (loaded + p.length) (by omega) (fun q hq => hne q (by simp [hq]))]
      rfl

theorem loadMultiLoop_length_le :
    ∀ (parts : List (List α)) (loaded : Nat), loaded < 50000 →
    (loadMultiLoop parts loaded).length ≤ (50000 - loaded - 1) + maxPartLen parts := by
  intro parts
  induction parts with
  | nil => intro loaded h; simp [loadMultiLoop]
  | cons p ps ih =>
    intro loaded h
    rw [show loadMultiLoop (p :: ps) loaded
        = if 50000 ≤ loaded + p.length then p
          else p ++ loadMultiLoop ps (loaded + p.length) from rfl]
    have hmax1 : p.length ≤ maxPartLen (p :: ps) := Nat.le_max_left _ _
    have hmax2 : maxPartLen ps ≤ maxPartLen (p :: ps) := Nat.le_max_right _ _
    by_cases hstop : 50000 ≤ loaded + p.length
    · rw [if_pos hstop]
      omega
    · rw [if_neg hstop, List.length_append]
      have := ih (loaded + p.length) (by omega)
      omega

theorem maxPartLen_take_le (f : Nat) (parts : List (List α)) :
    maxPartLen (parts.take f) ≤ maxPartLen parts := by
  induction parts generalizing f with
  | nil => simp
  | cons p ps ih =>
    cases f with
    | zero => simp [maxPartLen]
    | succ m =>
      rw [List.take_succ_cons]
      show max p.length (maxPartLen (ps.take m)) ≤ max p.length (maxPartLen ps)
      exact max_le_max le_rfl (ih m)

/-! ## Round-trip of one persisted part -/

theorem flatten_flatMap_eq (f : List α → List (List α)) (L : List (List α))
    (h : ∀ c ∈ L, (f c).flatten = c) : (L.flatMap f).flatten = L.flatten := by
  induction L with
  | nil => rfl
  | cons c cs ih =>
    rw [List.flatMap_cons, List.flatten_append, h c (by simp), List.flatten_cons,
      ih (fun d hd => h d (by simp [hd]))]

theorem loadIndexPart_multiFile_roundtrip {α : Type} (sz : List α → Nat)
    (szC : List (List α) → Nat) (data : List α)
    (h1 : data.length ≤ 50000)
    (h2 : ∀ c ∈ chunksOf 2000 data, sz c ≤ 30 * 1024 * 1024) :
    loadIndexPart sz szC (saveIndexPartMultiFile sz data) = data := by
  show loadMultiLoop
      (((chunksOf 2000 data).map
        (fun fileData =>
          if 30 * 1024 * 1024 < sz fileData then fileData.take (fileData.length / 2)
          else fileData)).take ((data.length + 2000 - 1) / 2000)) 0 = data
  have hmap : (chunksOf 2000 data).map
      (fun fileData =>
        if 30 * 1024 * 1024 < sz fileData then fileData.take (fileData.length / 2)
        else fileData) = chunksOf 2000 data := by
    have hcongr : ∀ c ∈ chunksOf 2000 data,
        (fun fileData =>
          if 30 * 1024 * 1024 < sz fileData then fileData.take (fileData.length / 2)
          else fileData) c = id c := by
      intro c hc
      have := h2 c hc
      simp only [id]
      rw [if_neg (by omega)]
    rw [List.map_congr_left hcongr, List.map_id]
  rw [hmap, ← chunksOf_length (show 0 < 2000 by omega) data, List.take_length]
  rw [loadMultiLoop_eq_flatten (chunksOf 2000 data) 0
    (by rw [chunksOf_flatten]; omega)
    (chunksOf_ne_nil (show 0 < 2000 by omega) data)]
  exact chunksOf_flatten 2000 data

theorem loadIndexPart_chunked_tail {α : Type} (sz : List α → Nat)
    (szC : List (List α) → Nat) (data : List α) (u : Nat)
    (h1 : data.length ≤ 50000)
    (h2 : ∀ c ∈ chunksOf 2000 data, sz c ≤ 30 * 1024 * 1024) :
    loadIndexPart sz szC
      (if 100 * 1024 * 1024 < szC ((chunksOf u data).flatMap
          (fun c => if 50 * 1024 * 1024 < sz c then chunksOf (u / 4) c else [c]))
       then saveIndexPartMultiFile sz data
       else SavedPart.chunked ((chunksOf u data).flatMap
          (fun c => if 50 * 1024 * 1024 < sz c then chunksOf (u / 4) c else [c]))
          data.length) = data := by
  set chunks := (chunksOf u data).flatMap
    (fun c => if 50 * 1024 * 1024 < sz c then chunksOf (u / 4) c else [c]) with hchunks
  by_cases hbig : 100 * 1024 * 1024 < szC chunks
  · rw [if_pos hbig]
    exact loadIndexPart_multiFile_roundtrip sz szC data h1 h2
  · rw [if_neg hbig]
    have hside : ∀ c ∈ chunksOf u data,
        (if 50 * 1024 * 1024 < sz c then chunksOf (u / 4) c else [c]).flatten = c := by
      intro c hc
      by_cases hcs : 50 * 1024 * 1024 < sz c
      · rw [if_pos hcs]
        exact chunksOf_flatten (u / 4) c
      · rw [if_neg hcs]
        simp
    have hfl : chunks.flatten = data := by
      rw [hchunks, flatten_flatMap_eq _ _ hside, chunksOf_flatten]
    show (if 200 * 1024 * 1024 < szC chunks then []
          else if 100 * 1024 * 1024 < szC chunks then []
          else loadChunksLoop chunks 0) = data
    rw [if_neg (by omega), if_neg hbig,
      loadChunksLoop_eq_flatten chunks 0 (by rw [hfl]; omega), hfl]

/-- Round trip of one entry array through `saveIndexPart` and
`loadIndexPart`: exact whenever the array stays within the loader's
50 000-entry safety cap and no 2000-entry slice exceeds the 30 MB
per-part ceiling (so no truncation occurs). -/
theorem loadIndexPart_saveIndexPart {α : Type} (sz : List α → Nat)
    (szC : List (List α) → Nat) (data : List α)
    (h1 : data.length ≤ 50000)
    (h2 : ∀ c ∈ chunksOf 2000 data, sz c ≤ 30 * 1024 * 1024) :
    loadIndexPart sz szC (saveIndexPart sz szC data) = data := by
  unfold saveIndexPart
  by_cases hd : data.length ≤ 1000 ∧ sz data ≤ 20 * 1024 * 1024
  · rw [if_pos hd]
    show (if 200 * 1024 * 1024 < sz data then []
          else if 100 * 1024 * 1024 < sz data then []
          else if 50000 < data.length then data.take 50000
          else data) = data
    obtain ⟨-, hsz⟩ := hd
    rw [if_neg (by omega), if_neg (by omega), if_neg (by omega)]
  · rw [if_neg hd]
    by_cases h10k : 10000 < data.length
    · rw [if_pos h10k]
      exact loadIndexPart_multiFile_roundtrip sz szC data h1 h2
    · rw [if_neg h10k]
      exact loadIndexPart_chunked_tail sz szC data
        (min 500 (max 100 (data.length / 10))) h1 h2

/-! ## `new Map(entries)` is the identity on duplicate-free entry lists -/

theorem mapFromEntries_aux :
    ∀ (l acc : FileMap), ((acc ++ l).map Prod.fst).Nodup →
    l.foldl (fun m e => mapSet m e.1 e.2) acc = acc ++ l := by
  intro l
  induction l with
  | nil => intro acc _; simp
  | cons e t ih =>
    intro acc h
    have hnot : mapHas acc e.1 = false := by
      rw [mapHas]
      by_contra hcon
      rw [Bool.not_eq_false, List.any_eq_true] at hcon
      obtain ⟨a, ha, hae⟩ := hcon
      rw [decide_eq_true_eq] at hae
      rw [List.map_append, List.nodup_append] at h
      exact h.2.2 (List.mem_map_of_mem Prod.fst ha)
        (by rw [hae]; simp)
    rw [List.foldl_cons,
      show mapSet acc e.1 e.2 = acc ++ [(e.1, e.2)] from by rw [mapSet, hnot]; simp,
      show ((e.1, e.2) : String × FileIndex) = e from rfl,
      ih (acc ++ [e]) (by rw [List.append_assoc]; simpa using h),
      List.append_assoc]
    rfl

theorem mapFromEntries_self (l : FileMap) (h : (l.map Prod.fst).Nodup) :
    mapFromEntries l = l := by
  have := mapFromEntries_aux l [] (by simpa using h)
  simpa [mapFromEntries] using this

/-- C4 (amended): Save followed by Load under unchanged workspace
identity and fingerprints reproduces the index exactly — identical path
to content mappings in all three domains, only the timestamp replaced —
provided each domain holds at most 50 000 entries and no 2000-entry
slice of a domain exceeds the 30 MB per-part encoding ceiling (the two
situations in which the codec deliberately truncates). -/
theorem c4_roundtrip_amended (szMeta : Metadata → Nat)
    (sz : List (String × FileIndex) → Nat)
    (szC : List (List (String × FileIndex)) → Nat)
    (env : Env) (idx : Index) (now : Nat)
    (hMeta : ∀ m, szMeta m ≤ 10 * 1024 * 1024)
    (hws : env.workspaceId = idx.workspacePath)
    (hgm : env.goModHash = idx.goModHash)
    (hv : idx.version = "2.1")
    (hW : idx.workspace.length ≤ 50000)
    (hD : idx.dependencies.length ≤ 50000)
    (hS : idx.stdlib.length ≤ 50000)
    (hCW : ∀ c ∈ chunksOf 2000 idx.workspace, sz c ≤ 30 * 1024 * 1024)
    (hCD : ∀ c ∈ chunksOf 2000 idx.dependencies, sz c ≤ 30 * 1024 * 1024)
    (hCS : ∀ c ∈ chunksOf 2000 idx.stdlib, sz c ≤ 30 * 1024 * 1024)
    (hNW : (idx.workspace.map Prod.fst).Nodup)
    (hND : (idx.dependencies.map Prod.fst).Nodup)
    (hNS : (idx.stdlib.map Prod.fst).Nodup) :
    loadIndexSplit sz szC env (saveIndex szMeta sz szC idx now)
      = some { idx with lastUpdated := now } := by
  simp only [saveIndex, loadIndexSplit]
  rw [if_neg (show ¬ (10 * 1024 * 1024 < szMeta
      { version := idx.version, lastUpdated := now, workspacePath := idx.workspacePath,
        goModHash := idx.goModHash, goVersion := idx.goVersion,
        workspaceCount := idx.workspace.length,
        dependenciesCount := idx.dependencies.length,
        stdlibCount := idx.stdlib.length, format := "split" })
    from Nat.not_lt.mpr (hMeta _))]
  show loadSplitIndex sz szC env
      { version := idx.version, lastUpdated := now, workspacePath := idx.workspacePath,
        goModHash := idx.goModHash, goVersion := idx.goVersion,
        workspaceCount := idx.workspace.length,
        dependenciesCount := idx.dependencies.length,
        stdlibCount := idx.stdlib.length, format := "split" }
      (saveIndexPart sz szC idx.workspace)
      (saveIndexPart sz szC idx.dependencies)
      (saveIndexPart sz szC idx.stdlib) = _
  unfold loadSplitIndex
  rw [if_neg (by simp), if_neg (fun hne => hne hws.symm),
    if_neg (fun hne => hne hv), if_neg (fun hne => hne hgm),
    loadIndexPart_saveIndexPart sz szC idx.workspace hW hCW,
    loadIndexPart_saveIndexPart sz szC idx.dependencies hD hCD,
    loadIndexPart_saveIndexPart sz szC idx.stdlib hS hCS,
    mapFromEntries_self idx.workspace hNW,
    mapFromEntries_self idx.dependencies hND,
    mapFromEntries_self idx.stdlib hNS]

/-- Witness for C4 (amended): a small two-dependency index survives
Save → Load byte-for-byte, with only the timestamp replaced. -/
theorem c4_roundtrip_witness :
    loadIndexSplit (fun _ => 0) (fun _ => 0) { emptyEnv with workspaceId := "/ws" }
      (saveIndex (fun _ => 0) (fun _ => 0) (fun _ => 0) twoDepIndex 7)
      = some { twoDepIndex with lastUpdated := 7 } :=
  c4_roundtrip_amended (fun _ => 0) (fun _ => 0) (fun _ => 0)
    { emptyEnv with workspaceId := "/ws" } twoDepIndex 7
    (fun _ => Nat.zero_le _) rfl rfl rfl (by decide) (by decide) (by decide)
    (fun c _ => Nat.zero_le _) (fun c _ => Nat.zero_le _) (fun c _ => Nat.zero_le _)
    (by decide) (by decide) (by decide)

/-- Counterexample to C4 as stated: when a part's encoding exceeds the
30 MB per-part ceiling, `saveIndexPartMultiFile` truncates the part to
its first half instead of failing, so Save → Load loses an entry of the
dependency domain even though identity and fingerprints are
unchanged. -/
theorem c4_roundtrip_cex :
    ((loadIndexSplit (fun _ => 100000000) (fun _ => 200000000)
        { emptyEnv with workspaceId := "/ws" }
        (saveIndex (fun _ => 0) (fun _ => 100000000) (fun _ => 200000000)
          twoDepIndex 7)).map Index.dependencies)
      ≠ some twoDepIndex.dependencies := by
  decide

/-- C1 (amended): `loadSplitIndex` misses (returns `false`, never an
error) exactly when the layout tag, the workspace identity, the format
version or the manifest fingerprint mismatches — checked in that order;
the toolchain fingerprint (`goVersion`) is carried in the metadata but
never validated, so a toolchain change alone does not invalidate the
cache. -/
theorem c1_load_validation (sz : List (String × FileIndex) → Nat)
    (szC : List (List (String × FileIndex)) → Nat) (env : Env)
    (metadata : Metadata)
    (wsPart depPart stdPart : SavedPart (String × FileIndex)) :
    loadSplitIndex sz szC env metadata wsPart depPart stdPart = none ↔
      (metadata.format ≠ "split" ∨ metadata.workspacePath ≠ env.workspaceId ∨
       metadata.version ≠ "2.1" ∨ env.goModHash ≠ metadata.goModHash) := by
  unfold loadSplitIndex
  split_ifs with h1 h2 h3 h4 <;> simp_all

/-- Counterexample to C1 as stated: an index saved under toolchain
`go1.20` still loads (no cache miss) when the current toolchain is
`go1.99`, because `loadSplitIndex` never compares `goVersion`. -/
theorem c1_load_cex :
    newGoEnv.goVersion ≠ goVersionIndex.goVersion
    ∧ (loadIndexSplit (fun _ => 0) (fun _ => 0) newGoEnv
        (saveIndex (fun _ => 0) (fun _ => 0) (fun _ => 0) goVersionIndex 3)).isSome
      = true := by
  exact ⟨by decide, by decide⟩

/-! ## Load-side entry caps -/

theorem loadChunksLoop_length_le :
    ∀ (chunks : List (List α)) (processed : Nat), processed ≤ 50000 →
    (loadChunksLoop chunks processed).length ≤ 50000 - processed := by
  intro chunks
  induction chunks with
  | nil => intro p _; simp [loadChunksLoop]
  | cons c cs ih =>
    intro p h
    rw [show loadChunksLoop (c :: cs) p
        = if 50000 < p + c.length then c.take (50000 - p)
          else c ++ loadChunksLoop cs (p + c.length) from rfl]
    by_cases hc : 50000 < p + c.length
    · rw [if_pos hc]
      exact List.length_take_le _ _
    · rw [if_neg hc, List.length_append]
      have := ih (p + c.length) (by omega)
      omega

/-- C9 (amended): after a successful Load, a domain decoded from the
array or chunked encoding holds at most 50 000 entries (the loader
truncates exactly there), but a domain decoded from the multi-file
encoding can exceed 50 000: the loader stops only after appending the
part that reaches the limit, so the count is bounded only by
49 999 plus the largest part's size. -/
theorem c9_load_cap_amended {α : Type} (sz : List α → Nat)
    (szC : List (List α) → Nat) :
    (∀ entries : List α,
      (loadIndexPart sz szC (SavedPart.direct entries)).length ≤ 50000)
    ∧ (∀ (chunks : List (List α)) (t : Nat),
      (loadIndexPart sz szC (SavedPart.chunked chunks t)).length ≤ 50000)
    ∧ (∀ (t f : Nat) (parts : List (List α)),
      (loadIndexPart sz szC (SavedPart.multiFile t f parts)).length
        ≤ 49999 + maxPartLen parts) := by
  refine ⟨?_, ?_, ?_⟩
  · intro entries
    show (if 200 * 1024 * 1024 < sz entries then []
          else if 100 * 1024 * 1024 < sz entries then []
          else if 50000 < entries.length then entries.take 50000
          else entries).length ≤ 50000
    split_ifs with g1 g2 g3
    · simp
    · simp
    · exact List.length_take_le _ _
    · omega
  · intro chunks t
    show (if 200 * 1024 * 1024 < szC chunks then []
          else if 100 * 1024 * 1024 < szC chunks then []
          else loadChunksLoop chunks 0).length ≤ 50000
    split_ifs with g1 g2
    · simp
    · simp
    · have := loadChunksLoop_length_le chunks 0 (by omega)
      omega
  · intro t f parts
    show (loadMultiLoop (parts.take f) 0).length ≤ 49999 + maxPartLen parts
    have h1 := loadMultiLoop_length_le (parts.take f) 0 (by omega)
    have h2 := maxPartLen_take_le f parts
    omega

theorem loadMultiLoop_replicate (x : α) (rest : List (List α)) :
    ∀ (k loaded : Nat), loaded + 2000 * k < 50000 →
    loadMultiLoop (List.replicate k (List.replicate 2000 x) ++ rest) loaded
      = List.replicate (2000 * k) x ++ loadMultiLoop rest (loaded + 2000 * k) := by
  intro k
  induction k with
  | zero => intro loaded h; rfl
  | succ m ih =>
    intro loaded h
    rw [List.replicate_succ, List.cons_append]
    rw [show loadMultiLoop
        (List.replicate 2000 x :: (List.replicate m (List.replicate 2000 x) ++ rest)) loaded
        = if 50000 ≤ loaded + (List.replicate 2000 x).length then List.replicate 2000 x
          else List.replicate 2000 x ++ loadMultiLoop
            (List.replicate m (List.replicate 2000 x) ++ rest)
            (loaded + (List.replicate 2000 x).length) from rfl]
    rw [List.length_replicate, if_neg (by omega), ih (loaded + 2000) (by omega)]
    rw [show loaded + 2000 + 2000 * m = loaded + 2000 * (m + 1) from by ring,
      ← List.append_assoc, ← List.replicate_add,
      show 2000 + 2000 * m = 2000 * (m + 1) from by ring]

/-- Counterexample to C9 as stated: a persisted multi-file layout whose
parts hold 24 × 2000, then 1000, then 2000 entries (the shape the writer
produces for 52 000 entries when the 25th part is truncated at the
30 MB ceiling) loads 51 000 entries — more than the claimed 50 000
bound. -/
theorem c9_load_cap_cex :
    50000 < (loadIndexPart (fun _ => 0) (fun _ => 0)
      (SavedPart.multiFile 51000 26 overfullParts)).length := by
  show 50000 < (loadMultiLoop (overfullParts.take 26) 0).length
  have htake : overfullParts.take 26 = overfullParts :=
    List.take_of_length_le
      (by simp only [overfullParts, List.length_append, List.length_replicate,
            List.length_cons, List.length_nil]
          omega)
  rw [htake]
  unfold overfullParts
  rw [loadMultiLoop_replicate 0 _ 24 0 (by omega)]
  rw [show (0 + 2000 * 24 : Nat) = 48000 from by norm_num]
  rw [show loadMultiLoop [List.replicate 1000 (0 : Nat), List.replicate 2000 0] 48000
      = if 50000 ≤ 48000 + (List.replicate 1000 (0 : Nat)).length
        then List.replicate 1000 (0 : Nat)
        else List.replicate 1000 (0 : Nat) ++ loadMultiLoop [List.replicate 2000 (0 : Nat)]
          (48000 + (List.replicate 1000 (0 : Nat)).length) from rfl]
  rw [List.length_replicate, if_neg (by omega)]
  rw [show loadMultiLoop [List.replicate 2000 (0 : Nat)] (48000 + 1000)
      = if 50000 ≤ 48000 + 1000 + (List.replicate 2000 (0 : Nat)).length
        then List.replicate 2000 (0 : Nat)
        else List.replicate 2000 (0 : Nat) ++ loadMultiLoop []
          (48000 + 1000 + (List.replicate 2000 (0 : Nat)).length) from rfl]
  rw [List.length_replicate, if_pos (by omega)]
  simp only [List.length_append, List.length_replicate]
  omega

/-! ## Dependency-manifest update (frame conditions) -/

theorem indexFile_dependency_frame (env : Env) (idx : Index) (p : String) :
    (indexFile env idx p .dependency).workspace = idx.workspace
    ∧ (indexFile env idx p .dependency).stdlib = idx.stdlib
    ∧ (indexFile env idx p .dependency).goModHash = idx.goModHash := by
  unfold indexFile
  cases env.fs p <;> simp

theorem indexFiles_dependency_frame (env : Env) :
    ∀ (files : List String) (idx : Index),
    (indexFiles env files .dependency idx).workspace = idx.workspace
    ∧ (indexFiles env files .dependency idx).stdlib = idx.stdlib
    ∧ (indexFiles env files .dependency idx).goModHash = idx.goModHash := by
  intro files
  induction files with
  | nil => intro idx; exact ⟨rfl, rfl, rfl⟩
  | cons p rest ih =>
    intro idx
    rw [show indexFiles env (p :: rest) .dependency idx
        = indexFiles env rest .dependency (indexFile env idx p .dependency) from rfl]
    obtain ⟨e1, e2, e3⟩ := ih (indexFile env idx p .dependency)
    obtain ⟨f1, f2, f3⟩ := indexFile_dependency_frame env idx p
    exact ⟨by rw [e1, f1], by rw [e2, f2], by rw [e3, f3]⟩

theorem indexDependencies_frame (env : Env) (idx : Index) :
    (indexDependencies env idx).workspace = idx.workspace
    ∧ (indexDependencies env idx).stdlib = idx.stdlib
    ∧ (indexDependencies env idx).goModHash = idx.goModHash := by
  unfold indexDependencies
  by_cases he : env.workspaceFolders.isEmpty
  · rw [if_pos he]
    exact ⟨rfl, rfl, rfl⟩
  · rw [if_neg he]
    generalize env.workspaceFolders = folders
    induction folders generalizing idx with
    | nil => exact ⟨rfl, rfl, rfl⟩
    | cons f rest ih =>
      rw [List.foldl_cons]
      obtain ⟨e1, e2, e3⟩ := ih (indexFiles env (env.depFilesOf f) .dependency idx)
      obtain ⟨f1, f2, f3⟩ := indexFiles_dependency_frame env (env.depFilesOf f) idx
      exact ⟨by rw [e1, f1], by rw [e2, f2], by rw [e3, f3]⟩

/-- C5: on a dependency-manifest trigger (which presupposes a workspace
folder), an unchanged recomputed go.mod hash makes the update a strict
no-op — the Index is returned untouched and nothing is persisted; a
changed hash clears and re-indexes only the dependency domain (from an
index whose dependency map was emptied and whose stored hash was
refreshed), leaves workspace and stdlib untouched, and persists. -/
theorem c5_update_dependency (env : Env) (idx : Index)
    (hfolders : env.workspaceFolders ≠ []) :
    (env.goModHash = idx.goModHash → updateDependencyIndex env idx = (idx, false))
    ∧ (env.goModHash ≠ idx.goModHash →
        (updateDependencyIndex env idx).1.workspace = idx.workspace
        ∧ (updateDependencyIndex env idx).1.stdlib = idx.stdlib
        ∧ (updateDependencyIndex env idx).1.goModHash = env.goModHash
        ∧ (updateDependencyIndex env idx).1.dependencies
            = (indexDependencies env
                { idx with dependencies := [], goModHash := env.goModHash }).dependencies
        ∧ (updateDependencyIndex env idx).2 = true) := by
  obtain ⟨f, rest, hf⟩ := List.exists_cons_of_ne_nil hfolders
  have hred : updateDependencyIndex env idx
      = if env.goModHash = idx.goModHash then (idx, false)
        else (indexDependencies env
          { idx with dependencies := [], goModHash := env.goModHash }, true) := by
    unfold updateDependencyIndex
    rw [hf]
    rfl
  constructor
  · intro heq
    rw [hred, if_pos heq]
  · intro hne
    rw [hred, if_neg hne]
    obtain ⟨e1, e2, e3⟩ := indexDependencies_frame env
      { idx with dependencies := [], goModHash := env.goModHash }
    exact ⟨by rw [e1], by rw [e2], by rw [e3], rfl, rfl⟩

/-- Witness for C5: a trigger with an unchanged `h2` manifest hash is a
strict no-op that persists nothing. -/
theorem c5_update_dependency_witness :
    updateDependencyIndex depUpdateEnv h2Index = (h2Index, false) :=
  (c5_update_dependency depUpdateEnv h2Index (by decide)).1 rfl

/-! ## Scan error policy -/

/-- C8: a failing toolchain resolution or a missing stdlib root
directory leaves the index untouched for that domain scan (zero files,
no failure), and a file whose read fails is skipped silently: that file
changes nothing and the scan of the remaining files proceeds
unaffected. -/
theorem c8_scan_error_policy (env : Env) (idx : Index) (p : String)
    (ty : FileType) (rest : List String) :
    (env.goEnvGOROOT = none → indexGoStdlib env idx = idx)
    ∧ (∀ goroot, env.goEnvGOROOT = some goroot →
        env.dirExists (goroot ++ "/src") = false → indexGoStdlib env idx = idx)
    ∧ (env.fs p = none →
        indexFile env idx p ty = idx
        ∧ indexFiles env (p :: rest) ty idx = indexFiles env rest ty idx) := by
  refine ⟨?_, ?_, ?_⟩
  · intro h
    unfold indexGoStdlib
    rw [h]
  · intro goroot h hdir
    unfold indexGoStdlib
    rw [h]
    show (if env.dirExists (goroot ++ "/src") = true
        then indexFiles env (env.stdlibFind (goroot ++ "/src")) .stdlib idx
        else idx) = idx
    simp [hdir]
  · intro h
    have hfile : indexFile env idx p ty = idx := by
      unfold indexFile
      rw [h]
    refine ⟨hfile, ?_⟩
    rw [show indexFiles env (p :: rest) ty idx
        = indexFiles env rest ty (indexFile env idx p ty) from rfl, hfile]

/-- Witness for C8: with no resolvable toolchain the stdlib scan leaves
the index untouched. -/
theorem c8_scan_error_policy_witness :
    indexGoStdlib emptyEnv (initialIndex "/ws") = initialIndex "/ws" :=
  (c8_scan_error_policy emptyEnv (initialIndex "/ws") "/x.go" FileType.stdlib []).1 rfl

/-! ## Build with no workspace folders -/

/-- C10: invoking Build with no workspace folders returns before
clearing any domain, before recomputing any fingerprint and before
persisting — the entire Index is unchanged, nothing is saved, and the
build-in-progress flag is reset to false on exit. -/
theorem c10_build_no_workspace (env : Env) (st : IndexerState)
    (h : env.workspaceFolders = []) :
    buildIndex env st = ({ st with isBuilding := false }, false) := by
  unfold buildIndex
  rw [h]
  rfl

/-- Witness for C10 at a concrete empty environment. -/
theorem c10_build_no_workspace_witness :
    buildIndex emptyEnv
      { index := initialIndex "no-workspace", isBuilding := false,
        currentWorkspace := "no-workspace" }
      = ({ index := initialIndex "no-workspace", isBuilding := false,
           currentWorkspace := "no-workspace" }, false) :=
  c10_build_no_workspace emptyEnv _ rfl

end GoSearch
